import Mathlib

/-!
Verification of the relative-position histogram engine of the htsdb
repository (Go).  The definitions below are a shallow embedding of:

* `record.go` — the `Range` record type and the `Head`/`Tail` position
  extractors (which panic on an orientation other than 1 / -1);
* `cmd/htsdb-relative-pos-distro/main.go` — the partition worker
  (`worker`), which for one reference scans both orientations, builds a
  position index (`wig`) from dataset 1, streams dataset 2 against it to
  accumulate a relative-offset histogram (`hist`) and read counts, and the
  aggregate-mode merge loop of `main`;
* `htsdb-relative-pos-distro/main.go` — the older variant of the same
  engine (same worker body with both collapse flags absent, i.e. false,
  and a single shared position extractor).

Go maps `map[int]uint` / `map[int]bool` are embedded as total functions
`Int → Nat` / `Int → Bool` with the zero value as default: a Go map key is
present in `wig` exactly when its value is positive, because `wig[pos]++`
is the only write.  Record streams are embedded as lists indexed by the
queried orientation (the worker queries `strand = ori AND rname = ref`;
one partition is one reference, so the lists carry the per-orientation
records of that reference).
-/

namespace Htsdb

/-- feat.Forward in biogo: the forward strand, numerically 1. -/
def Forward : Int := 1

/-- feat.Reverse in biogo: the reverse strand, numerically -1. -/
def Reverse : Int := -1

/-- `Range` from record.go: alignment coordinates of one htsdb record
(`start`, `stop`, `copy_number` columns).  Go `int` is embedded as `Int`. -/
structure Range where
  startPos : Int
  stopPos : Int
  copyNumber : Int
  deriving Repr, DecidableEq

/-- `Range.Start` from record.go. -/
def Range.start (r : Range) : Int := r.startPos

/-- `Range.End` from record.go: `StopPos + 1` (end-exclusive coordinate). -/
def Range.stop (r : Range) : Int := r.stopPos + 1

/-- `Head` from record.go.  The Go function panics when the orientation is
neither 1 nor -1; the panic is embedded as `none`. -/
def Head (r : Range) (o : Int) : Option Int :=
  if o = Forward then some r.start
  else if o = Reverse then some (r.stop - 1)
  else none

/-- `Tail` from record.go.  The Go function panics when the orientation is
neither 1 nor -1; the panic is embedded as `none`. -/
def Tail (r : Range) (o : Int) : Option Int :=
  if o = Forward then some (r.stop - 1)
  else if o = Reverse then some r.start
  else none

/-- Total restriction of `Head` used inside the worker, where the
orientation is always 1 or -1 (see `Head_eq_headAt`). -/
def headAt (r : Range) (o : Int) : Int :=
  if o = Forward then r.start else r.stop - 1

/-- Total restriction of `Tail` used inside the worker, where the
orientation is always 1 or -1 (see `Tail_eq_tailAt`). -/
def tailAt (r : Range) (o : Int) : Int :=
  if o = Forward then r.stop - 1 else r.start

/-- On the two valid orientations, `Head` agrees with its total
restriction `headAt`. -/
theorem Head_eq_headAt (r : Range) (o : Int) (h : o = Forward ∨ o = Reverse) :
    Head r o = some (headAt r o) := by
  rcases h with h | h <;> simp [Head, headAt, h, Forward, Reverse]

/-- On the two valid orientations, `Tail` agrees with its total
restriction `tailAt`. -/
theorem Tail_eq_tailAt (r : Range) (o : Int) (h : o = Forward ∨ o = Reverse) :
    Tail r o = some (tailAt r o) := by
  rcases h with h | h <;> simp [Tail, tailAt, h, Forward, Reverse]

/-- The options the worker consumes, from `Opts` in
cmd/htsdb-relative-pos-distro/main.go (the fields the core algorithm
reads; `pos1`/`pos2` keep their Go string encoding "5p"/"3p"). -/
structure Opts where
  pos1 : String
  collapse1 : Bool
  pos2 : String
  collapse2 : Bool
  span : Int
  anti : Bool
  deriving Repr, DecidableEq

/-- `getPos1 := htsdb.Head; if j.opts.Pos1 == "3p" { getPos1 = htsdb.Tail }`
from the worker (total restriction; the worker only calls it at ±1). -/
def getPosFn (pos : String) : Range → Int → Int :=
  if pos = "3p" then tailAt else headAt

/-- One iteration of the dataset-1 loop of `worker`:
`if _, ok := wig[pos]; ok && j.opts.Collapse1 { continue };
count1++; wig[pos]++`.  Key presence in the Go map `wig` is value > 0. -/
def scan1Step (collapse1 : Bool) (getPos1 : Range → Int → Int) (ori1 : Int)
    (acc : (Int → Nat) × Nat) (r : Range) : (Int → Nat) × Nat :=
  let pos := getPos1 r ori1
  if 0 < acc.1 pos ∧ collapse1 = true then acc
  else ((fun p => if p = pos then acc.1 p + 1 else acc.1 p), acc.2 + 1)

/-- One iteration of the inner offset loop of `worker`:
`if pos+relPos < 0 { continue }; hist[relPos*int(ori)] += wig[pos+relPos]`. -/
def probeStep (ori : Int) (wig : Int → Nat) (pos : Int)
    (hist : Int → Nat) (relPos : Int) : Int → Nat :=
  if pos + relPos < 0 then hist
  else fun k => if k = relPos * ori then hist k + wig (pos + relPos) else hist k

/-- The offsets `relPos := -span; relPos <= span; relPos++` visited by the
inner loop, in order; empty when `span < 0` (the Go loop body never runs). -/
def deltas (span : Int) : List Int :=
  (List.range (2 * span + 1).toNat).map (fun i : Nat => -span + (i : Int))

/-- One iteration of the dataset-2 loop of `worker`:
`if visited[pos] && j.opts.Collapse2 { continue };
visited[pos] = true; count2++;` then the inner offset loop.
State: (visited, count2, hist). -/
def scan2Step (collapse2 : Bool) (getPos2 : Range → Int → Int)
    (span : Int) (ori : Int) (wig : Int → Nat)
    (acc : (Int → Bool) × Nat × (Int → Nat)) (r : Range) :
    (Int → Bool) × Nat × (Int → Nat) :=
  let pos := getPos2 r ori
  if acc.1 pos = true ∧ collapse2 = true then acc
  else ((fun p => if p = pos then true else acc.1 p),
        acc.2.1 + 1,
        (deltas span).foldl (probeStep ori wig pos) acc.2.2)

/-- A worker's running state across the orientation loop: the histogram
(`hist`, Go `map[int]uint`) and the two read counts (only ever
incremented from 0, hence `Nat`). -/
@[ext]
structure WorkerRes where
  hist : Int → Nat
  count1 : Nat
  count2 : Nat

/-- `ori1 := ori; if j.opts.Anti { ori1 = -1 * ori1 }`: the orientation
dataset 1 is queried with. -/
def oriQ (opts : Opts) (ori : Int) : Int :=
  if opts.anti = true then -1 * ori else ori

/-- The body of the worker's orientation loop for one orientation `ori`:
build the fresh dataset-1 index `wig` (accumulating `count1`), then stream
dataset 2 with a fresh `visited` set, accumulating `count2` and `hist`. -/
def workerOri (opts : Opts) (reads1 reads2 : Int → List Range) (ori : Int)
    (st : WorkerRes) : WorkerRes :=
  let ori1 := oriQ opts ori
  let s1 := (reads1 ori1).foldl
    (scan1Step opts.collapse1 (getPosFn opts.pos1) ori1) ((fun _ => 0), st.count1)
  let s2 := (reads2 ori).foldl
    (scan2Step opts.collapse2 (getPosFn opts.pos2) opts.span ori s1.1)
    ((fun _ => false), st.count2, st.hist)
  ⟨s2.2.2, s1.2, s2.2.1⟩

/-- The whole partition worker body for one job (one reference):
`for _, ori := range []feat.Orientation{feat.Forward, feat.Reverse}`. -/
def workerRun (opts : Opts) (reads1 reads2 : Int → List Range) : WorkerRes :=
  [Forward, Reverse].foldl (fun st ori => workerOri opts reads1 reads2 ori st)
    ⟨(fun _ => 0), 0, 0⟩

/-- The dataset-1 index built for orientation `ori` (the `wig` map the
dataset-2 scan of that orientation probes). -/
def wigOf (opts : Opts) (reads1 : Int → List Range) (ori : Int) : Int → Nat :=
  ((reads1 (oriQ opts ori)).foldl
    (scan1Step opts.collapse1 (getPosFn opts.pos1) (oriQ opts ori))
    ((fun _ => 0), 0)).1

/-- Pointwise merge of two partition results, from the aggregate-mode loop
of `main`: `for k, v := range res.hist { aggrHist[k] += v };
totalCount1 += res.count1; totalCount2 += res.count2` (iterating the keys
of a Go map and adding is the pointwise sum, absent keys being 0). -/
def mergeRes (a b : WorkerRes) : WorkerRes :=
  ⟨fun k => a.hist k + b.hist k, a.count1 + b.count1, a.count2 + b.count2⟩

/-- The empty aggregate `main` starts from: empty `aggrHist`, zero totals. -/
def emptyRes : WorkerRes := ⟨(fun _ => 0), 0, 0⟩

/-- Aggregate-mode merge of a list of partition results, in arrival order. -/
def aggregate (rs : List WorkerRes) : WorkerRes := rs.foldl mergeRes emptyRes

/-- The sum of the histogram entries over the reported offset range
`[-span, span]` (every key the worker ever writes lies in that range). -/
def histSum (span : Int) (h : Int → Nat) : Nat := ((deltas span).map h).sum

/-- The rows the reporter prints: one `(offset, pairs)` row per offset in
`[-span, span]`, in increasing order (`for i := -span; i <= span; i++`). -/
def outputRows (span : Int) (h : Int → Nat) : List (Int × Nat) :=
  (deltas span).map (fun i => (i, h i))

/-- The explicit configuration validation `main` performs before any
computation: `--pos1`/`--pos2` must each be "5p" or "3p".  No other
option is validated (in particular `span` is not). -/
def validateOpts (opts : Opts) : Bool :=
  (opts.pos1 = "5p" || opts.pos1 = "3p") && (opts.pos2 = "5p" || opts.pos2 = "3p")

/-- Two records with identical coordinates (their copy numbers may differ). -/
def sameCoords (r r' : Range) : Prop :=
  r.startPos = r'.startPos ∧ r.stopPos = r'.stopPos

/-! ### Concrete scenario inputs (the spec's §8 scenarios) -/

/-- span 5, 5p/5p reference points, no collapsing, no anti-sense. -/
def scOpts : Opts := ⟨"5p", false, "5p", false, 5, false⟩

/-- Dataset 1 of the concrete scenario: one forward interval [10,11)
(stored stop 10) with copy number 1 on the single reference. -/
def scReads1 : Int → List Range :=
  fun ori => if ori = Forward then [⟨10, 10, 1⟩] else []

/-- Dataset 2 of the concrete scenario: one forward interval [12,13)
(stored stop 12) with copy number 1. -/
def scReads2 : Int → List Range :=
  fun ori => if ori = Forward then [⟨12, 12, 1⟩] else []

/-- Dataset 2 with two identical forward intervals [12,13) (the
collapse-2 scenario). -/
def scReads2Dup : Int → List Range :=
  fun ori => if ori = Forward then [⟨12, 12, 1⟩, ⟨12, 12, 1⟩] else []

/-! ### Facts about the offset list -/

/-- Membership in the visited-offset list is exactly the interval
`[-span, span]`. -/
theorem mem_deltas {span d : Int} : d ∈ deltas span ↔ -span ≤ d ∧ d ≤ span := by
  simp only [deltas, List.mem_map, List.mem_range]
  constructor
  · rintro ⟨i, hi, rfl⟩
    omega
  · rintro ⟨h1, h2⟩
    exact ⟨(d + span).toNat, by omega, by omega⟩

/-- The inner loop visits each offset exactly once. -/
theorem deltas_nodup (span : Int) : (deltas span).Nodup := by
  refine List.Nodup.map ?_ (List.nodup_range _)
  intro a b h
  simp only at h
  omega

/-- The inner loop performs `(2*span+1).toNat` iterations. -/
theorem deltas_length (span : Int) : (deltas span).length = (2 * span + 1).toNat := by
  simp [deltas]

/-- With a negative span the inner loop body never runs. -/
theorem deltas_neg {span : Int} (h : span < 0) : deltas span = [] := by
  have : (2 * span + 1).toNat = 0 := by omega
  simp [deltas, this]

/-! ### Claim theorems -/

/-- C4: the position extractor maps (head, forward) to `start`,
(head, reverse) to `end - 1`, (tail, forward) to `end - 1`, and
(tail, reverse) to `start`, where `end` is the stored stop plus one. -/
theorem position_extractor_cases (r : Range) :
    Head r Forward = some r.start ∧ Head r Reverse = some (r.stop - 1) ∧
    Tail r Forward = some (r.stop - 1) ∧ Tail r Reverse = some r.start ∧
    r.stop = r.stopPos + 1 :=
  ⟨by simp [Head, Forward], by simp [Head, Forward, Reverse],
   by simp [Tail, Forward], by simp [Tail, Forward, Reverse], rfl⟩

/-- C5: on an orientation outside {forward, reverse} both position
extractors hit the fatal `panic` branch (embedded as `none`) and return no
coordinate; under the precondition that the orientation is forward or
reverse the fatal branch is unreachable (the result is always `some`). -/
theorem position_extractor_fatal :
    (∀ (r : Range) (o : Int), o ≠ Forward → o ≠ Reverse →
      Head r o = none ∧ Tail r o = none) ∧
    (∀ (r : Range) (o : Int), o = Forward ∨ o = Reverse →
      (Head r o).isSome = true ∧ (Tail r o).isSome = true) := by
  constructor
  · intro r o h1 h2
    exact ⟨by simp [Head, h1, h2], by simp [Tail, h1, h2]⟩
  · intro r o h
    rcases h with h | h <;> subst h <;>
      exact ⟨by simp [Head, Forward, Reverse], by simp [Tail, Forward, Reverse]⟩

/-- Witness for C5 at orientation 0 (fatal) and 1 (no fatal branch). -/
theorem position_extractor_fatal_witness :
    (Head ⟨3, 5, 1⟩ 0 = none ∧ Tail ⟨3, 5, 1⟩ 0 = none) ∧
    ((Head ⟨3, 5, 1⟩ 1).isSome = true ∧ (Tail ⟨3, 5, 1⟩ 1).isSome = true) :=
  ⟨position_extractor_fatal.1 ⟨3, 5, 1⟩ 0 (by decide) (by decide),
   position_extractor_fatal.2 ⟨3, 5, 1⟩ 1 (Or.inl rfl)⟩

/-- C6: an inner-loop iteration whose probe lands on a negative coordinate
(`pos + relPos < 0`) leaves the histogram unchanged.  In the worker the
inner offset loop carries only the histogram — `readCount1`/`readCount2`
are written outside it — so this iteration changes no state at all. -/
theorem negative_probe_no_contribution (ori : Int) (wig : Int → Nat)
    (pos relPos : Int) (hist : Int → Nat) (h : pos + relPos < 0) :
    probeStep ori wig pos hist relPos = hist := by
  simp [probeStep, h]

/-- Witness for C6: probing coordinate -1 from position 0 is a no-op. -/
theorem negative_probe_no_contribution_witness :
    probeStep 1 (fun _ => 1) 0 (fun _ => 0) (-1) = (fun _ => 0) :=
  negative_probe_no_contribution 1 (fun _ => 1) 0 (-1) (fun _ => 0) (by decide)

/-- C2: on the concrete scenario (dataset 1 = forward [10,11) weight 1,
dataset 2 = forward [12,13) weight 1, span 5, head reference points, no
collapsing, no anti-sense) the worker yields histogram -2 ↦ 1, every
other offset in [-5,5] ↦ 0, readCount1 = 1 and readCount2 = 1. -/
theorem concrete_scenario_histogram :
    (workerRun scOpts scReads1 scReads2).hist (-2) = 1 ∧
    (∀ d ∈ deltas 5, d ≠ -2 → (workerRun scOpts scReads1 scReads2).hist d = 0) ∧
    (workerRun scOpts scReads1 scReads2).count1 = 1 ∧
    (workerRun scOpts scReads1 scReads2).count2 = 1 := by
  refine ⟨by decide, ?_, by decide, by decide⟩
  decide

/-- C3: with collapse of dataset 2 enabled, a dataset-2 record whose
reference point was already visited in this partition is skipped whole:
the state (visited set, readCount2, histogram) is unchanged.  On the
concrete scenario with dataset 2 duplicated at position 12, readCount2
stays 1 and the histogram matches the single-interval case at every
reported offset. -/
theorem collapse2_skips_entirely :
    (∀ (getPos2 : Range → Int → Int) (span ori : Int) (wig : Int → Nat)
        (acc : (Int → Bool) × Nat × (Int → Nat)) (r : Range),
        acc.1 (getPos2 r ori) = true →
        scan2Step true getPos2 span ori wig acc r = acc) ∧
    ((workerRun ⟨"5p", false, "5p", true, 5, false⟩ scReads1 scReads2Dup).count2 = 1 ∧
      ∀ d ∈ deltas 5,
        (workerRun ⟨"5p", false, "5p", true, 5, false⟩ scReads1 scReads2Dup).hist d =
        (workerRun ⟨"5p", false, "5p", true, 5, false⟩ scReads1 scReads2).hist d) := by
  constructor
  · intro getPos2 span ori wig acc r h
    simp [scan2Step, h]
  · exact ⟨by decide, by decide⟩

/-- Witness for C3: a record at the already-visited position 12 leaves
the dataset-2 scan state untouched. -/
theorem collapse2_skips_entirely_witness :
    scan2Step true headAt 5 1 (fun _ => 0)
      ((fun p => decide (p = 12)), 1, (fun _ => 0)) ⟨12, 12, 1⟩ =
      ((fun p => decide (p = 12)), 1, (fun _ => 0)) :=
  collapse2_skips_entirely.1 headAt 5 1 (fun _ => 0)
    ((fun p => decide (p = 12)), 1, (fun _ => 0)) ⟨12, 12, 1⟩ (by decide)

/-- C1 counterexample: the worker runs `wig[pos]++`, never touching the
record's copy number.  A single dataset-1 record [10,11) with copy number
3 leaves the index at its reference point 10 holding 1, not the weight 3
the claim demands. -/
theorem index_weight_counterexample :
    headAt ⟨10, 10, 3⟩ Forward = 10 ∧
    wigOf ⟨"5p", false, "5p", false, 5, false⟩
      (fun ori => if ori = Forward then [⟨10, 10, 3⟩] else []) Forward 10 = 1 ∧
    (Range.mk 10 10 3).copyNumber = 3 ∧ (1 : Nat) ≠ 3 := by
  refine ⟨by decide, by decide, rfl, by decide⟩

/-- The dataset-1 scan with collapsing off: each record bumps the index at
its reference point by exactly one and the processed count by one. -/
theorem scan1_foldl_spec (getPos1 : Range → Int → Int) (ori1 : Int)
    (reads : List Range) (wig0 : Int → Nat) (c0 : Nat) (p : Int) :
    ((reads.foldl (scan1Step false getPos1 ori1) (wig0, c0)).1 p =
      wig0 p + ((reads.filter (fun r => getPos1 r ori1 = p)).length)) ∧
    (reads.foldl (scan1Step false getPos1 ori1) (wig0, c0)).2 = c0 + reads.length := by
  induction reads generalizing wig0 c0 with
  | nil => simp
  | cons r rs ih =>
    simp only [List.foldl_cons, List.filter_cons, List.length_cons]
    have hstep : scan1Step false getPos1 ori1 (wig0, c0) r =
        ((fun q => if q = getPos1 r ori1 then wig0 q + 1 else wig0 q), c0 + 1) := by
      simp [scan1Step]
    rw [hstep]
    refine ⟨?_, ?_⟩
    · rw [(ih _ _).1]
      by_cases hp : getPos1 r ori1 = p
      · rw [if_pos hp.symm, if_pos (by simp [hp]), List.length_cons]
        omega
      · rw [if_neg (fun h => hp h.symm), if_neg (by simp [hp])]
    · rw [(ih _ _).2]
      omega

/-- C1 amended: when collapse of dataset 1 is disabled, the index entry at
each position is the number of dataset-1 records whose reference point is
that position — every record contributes exactly 1, its copy number is
never read, so duplicate positions accumulate their record count. -/
theorem index_accumulates_record_count (opts : Opts) (reads1 : Int → List Range)
    (ori p : Int) (h : opts.collapse1 = false) :
    wigOf opts reads1 ori p =
      ((reads1 (oriQ opts ori)).filter
        (fun r => getPosFn opts.pos1 r (oriQ opts ori) = p)).length := by
  have := scan1_foldl_spec (getPosFn opts.pos1) (oriQ opts ori)
    (reads1 (oriQ opts ori)) (fun _ => 0) 0 p
  simpa [wigOf, h] using this.1

/-- Witness for C1's amended theorem on the concrete scenario. -/
theorem index_accumulates_record_count_witness :
    wigOf scOpts scReads1 Forward 10 =
      ((scReads1 (oriQ scOpts Forward)).filter
        (fun r => getPosFn scOpts.pos1 r (oriQ scOpts Forward) = 10)).length :=
  index_accumulates_record_count scOpts scReads1 Forward 10 rfl

/-- Folding the aggregate-mode merge is the pointwise sum of the
histograms and the sums of the read counts. -/
theorem foldl_mergeRes (a : WorkerRes) (l : List WorkerRes) :
    l.foldl mergeRes a =
      ⟨fun k => a.hist k + (l.map (fun r => r.hist k)).sum,
       a.count1 + (l.map (fun r => r.count1)).sum,
       a.count2 + (l.map (fun r => r.count2)).sum⟩ := by
  induction l generalizing a with
  | nil => simp only [List.foldl_nil, List.map_nil, List.sum_nil]
           exact WorkerRes.ext (funext fun k => rfl) rfl rfl
  | cons r rs ih =>
    simp only [List.foldl_cons, List.map_cons, List.sum_cons]
    rw [ih]
    refine WorkerRes.ext (funext fun k => ?_) ?_ ?_ <;> simp [mergeRes] <;> omega

/-- The aggregate of a result list, in closed form. -/
theorem aggregate_eq (l : List WorkerRes) :
    aggregate l =
      ⟨fun k => (l.map (fun r => r.hist k)).sum,
       (l.map (fun r => r.count1)).sum,
       (l.map (fun r => r.count2)).sum⟩ := by
  rw [aggregate, foldl_mergeRes]
  refine WorkerRes.ext (funext fun k => ?_) ?_ ?_ <;> simp [emptyRes]

/-- C7: merging partition results is a pointwise sum of histograms and of
the two read counts; it is commutative and associative, and aggregating a
list of partition results in any order (any permutation) yields the same
final histogram and totals. -/
theorem merge_perm_invariant :
    (∀ a b, mergeRes a b = mergeRes b a) ∧
    (∀ a b c, mergeRes (mergeRes a b) c = mergeRes a (mergeRes b c)) ∧
    (∀ l1 l2 : List WorkerRes, l1.Perm l2 → aggregate l1 = aggregate l2) := by
  refine ⟨?_, ?_, ?_⟩
  · intro a b
    exact WorkerRes.ext (funext fun k => Nat.add_comm _ _)
      (Nat.add_comm _ _) (Nat.add_comm _ _)
  · intro a b c
    exact WorkerRes.ext (funext fun k => Nat.add_assoc _ _ _)
      (Nat.add_assoc _ _ _) (Nat.add_assoc _ _ _)
  · intro l1 l2 hp
    rw [aggregate_eq, aggregate_eq]
    exact WorkerRes.ext (funext fun k => (hp.map (fun r => r.hist k)).sum_eq)
      ((hp.map (fun r => r.count1)).sum_eq) ((hp.map (fun r => r.count2)).sum_eq)

/-- Witness for C7: swapping two concrete partition results leaves the
aggregate unchanged. -/
theorem merge_perm_invariant_witness :
    aggregate [⟨fun _ => 1, 2, 3⟩, emptyRes] =
      aggregate [emptyRes, ⟨fun _ => 1, 2, 3⟩] :=
  merge_perm_invariant.2.2 _ _ (List.Perm.swap _ _ _)

/-- With a negative span, the dataset-2 scan never touches the histogram
(the inner offset loop body never runs). -/
theorem scan2_foldl_hist_neg {span : Int} (h : span < 0) (collapse2 : Bool)
    (getPos2 : Range → Int → Int) (ori : Int) (wig : Int → Nat)
    (l : List Range) (acc : (Int → Bool) × Nat × (Int → Nat)) :
    (l.foldl (scan2Step collapse2 getPos2 span ori wig) acc).2.2 = acc.2.2 := by
  induction l generalizing acc with
  | nil => rfl
  | cons r rs ih =>
    rw [List.foldl_cons, ih]
    by_cases hc : acc.1 (getPos2 r ori) = true ∧ collapse2 = true
    · simp [scan2Step, hc]
    · simp [scan2Step, hc, deltas_neg h]

/-- With a negative span, one orientation pass leaves the histogram as it
found it. -/
theorem workerOri_hist_neg {opts : Opts} (h : opts.span < 0)
    (reads1 reads2 : Int → List Range) (ori : Int) (st : WorkerRes) :
    (workerOri opts reads1 reads2 ori st).hist = st.hist := by
  unfold workerOri
  exact scan2_foldl_hist_neg h _ _ _ _ _ _

/-- C8 counterexample: with span -1 and valid reference points the
validation in `main` passes — no configuration error is raised — the
worker still runs and counts the reads of both datasets, and the reporter
prints zero rows. -/
theorem negative_span_counterexample :
    validateOpts ⟨"5p", false, "5p", false, -1, false⟩ = true ∧
    (workerRun ⟨"5p", false, "5p", false, -1, false⟩ scReads1 scReads2).count1 = 1 ∧
    (workerRun ⟨"5p", false, "5p", false, -1, false⟩ scReads1 scReads2).count2 = 1 ∧
    outputRows (-1) (workerRun ⟨"5p", false, "5p", false, -1, false⟩
      scReads1 scReads2).hist = [] :=
  ⟨by decide, by decide, by decide, by decide⟩

/-- C8 amended: a negative span is not rejected — the validation checks
only the reference-point options and is independent of the span — the run
proceeds (partitions are still scanned and the read counts accumulate),
while the histogram stays identically zero and the reporter prints no
output rows. -/
theorem negative_span_amended (opts : Opts) (reads1 reads2 : Int → List Range)
    (h : opts.span < 0) :
    validateOpts opts =
      validateOpts ⟨opts.pos1, opts.collapse1, opts.pos2, opts.collapse2, 0, opts.anti⟩ ∧
    (∀ k, (workerRun opts reads1 reads2).hist k = 0) ∧
    outputRows opts.span (workerRun opts reads1 reads2).hist = [] := by
  have hz : (workerRun opts reads1 reads2).hist = (fun _ => 0) := by
    unfold workerRun
    simp only [List.foldl_cons, List.foldl_nil]
    rw [workerOri_hist_neg h, workerOri_hist_neg h]
  refine ⟨rfl, ?_, ?_⟩
  · intro k
    rw [hz]
  · simp [outputRows, deltas_neg h]

/-- Witness for C8's amended theorem at span -1 on the concrete inputs. -/
theorem negative_span_amended_witness :
    ((-1 : Int) < 0) ∧
    outputRows (-1) (workerRun ⟨"5p", false, "5p", false, -1, false⟩
      scReads1 scReads2).hist = [] :=
  ⟨by decide, (negative_span_amended ⟨"5p", false, "5p", false, -1, false⟩
    scReads1 scReads2 (by decide)).2.2⟩

/-- The position extractors read only the coordinates of a record. -/
theorem getPosFn_congr {r r' : Range} (h : sameCoords r r') (s : String) (o : Int) :
    getPosFn s r o = getPosFn s r' o := by
  obtain ⟨h1, h2⟩ := h
  unfold getPosFn
  split <;> simp [headAt, tailAt, Range.start, Range.stop, h1, h2]

/-- A dataset-1 scan step reads only the coordinates of the record. -/
theorem scan1Step_congr (c : Bool) (s : String) (o : Int)
    (acc : (Int → Nat) × Nat) {r r' : Range} (h : sameCoords r r') :
    scan1Step c (getPosFn s) o acc r = scan1Step c (getPosFn s) o acc r' := by
  simp only [scan1Step]
  rw [getPosFn_congr h s o]

/-- A dataset-2 scan step reads only the coordinates of the record. -/
theorem scan2Step_congr (c : Bool) (s : String) (span ori : Int)
    (wig : Int → Nat) (acc : (Int → Bool) × Nat × (Int → Nat))
    {r r' : Range} (h : sameCoords r r') :
    scan2Step c (getPosFn s) span ori wig acc r =
      scan2Step c (getPosFn s) span ori wig acc r' := by
  simp only [scan2Step]
  rw [getPosFn_congr h s ori]

/-- The dataset-1 scan is unchanged when every record keeps its
coordinates (copy numbers free). -/
theorem scan1_foldl_congr (c : Bool) (s : String) (o : Int)
    {l l' : List Range} (h : List.Forall₂ sameCoords l l')
    (acc : (Int → Nat) × Nat) :
    l.foldl (scan1Step c (getPosFn s) o) acc =
      l'.foldl (scan1Step c (getPosFn s) o) acc := by
  induction h generalizing acc with
  | nil => rfl
  | cons hr _ ih =>
    rw [List.foldl_cons, List.foldl_cons, scan1Step_congr c s o acc hr]
    exact ih _

/-- The dataset-2 scan is unchanged when every record keeps its
coordinates (copy numbers free). -/
theorem scan2_foldl_congr (c : Bool) (s : String) (span ori : Int)
    (wig : Int → Nat) {l l' : List Range}
    (h : List.Forall₂ sameCoords l l')
    (acc : (Int → Bool) × Nat × (Int → Nat)) :
    l.foldl (scan2Step c (getPosFn s) span ori wig) acc =
      l'.foldl (scan2Step c (getPosFn s) span ori wig) acc := by
  induction h generalizing acc with
  | nil => rfl
  | cons hr _ ih =>
    rw [List.foldl_cons, List.foldl_cons, scan2Step_congr c s span ori wig acc hr]
    exact ih _

/-- C10: the engine's outputs are independent of copy numbers — two runs
whose inputs agree on every record's coordinates (copy numbers arbitrary,
each at least 1) produce the same histogram, readCount1 and readCount2,
under every collapse/anti-sense configuration. -/
theorem copy_number_independence (opts : Opts)
    (reads1 reads2 reads1' reads2' : Int → List Range)
    (h1 : ∀ ori, List.Forall₂ sameCoords (reads1 ori) (reads1' ori))
    (h2 : ∀ ori, List.Forall₂ sameCoords (reads2 ori) (reads2' ori))
    (hw1 : ∀ ori, ∀ r ∈ reads1 ori, 1 ≤ r.copyNumber)
    (hw1' : ∀ ori, ∀ r ∈ reads1' ori, 1 ≤ r.copyNumber)
    (hw2 : ∀ ori, ∀ r ∈ reads2 ori, 1 ≤ r.copyNumber)
    (hw2' : ∀ ori, ∀ r ∈ reads2' ori, 1 ≤ r.copyNumber) :
    workerRun opts reads1 reads2 = workerRun opts reads1' reads2' := by
  have hori : ∀ (ori : Int) (st : WorkerRes),
      workerOri opts reads1 reads2 ori st = workerOri opts reads1' reads2' ori st := by
    intro ori st
    unfold workerOri
    dsimp only
    rw [scan1_foldl_congr opts.collapse1 opts.pos1 (oriQ opts ori) (h1 (oriQ opts ori)),
      scan2_foldl_congr opts.collapse2 opts.pos2 opts.span ori _ (h2 ori)]
  unfold workerRun
  simp only [List.foldl_cons, List.foldl_nil]
  rw [hori, hori]

/-- Dataset 1 of the scenario with its copy number changed to 7. -/
def scReads1Heavy : Int → List Range :=
  fun ori => if ori = Forward then [⟨10, 10, 7⟩] else []

/-- Dataset 2 of the scenario with its copy number changed to 9. -/
def scReads2Heavy : Int → List Range :=
  fun ori => if ori = Forward then [⟨12, 12, 9⟩] else []

/-- Witness for C10: bumping the scenario's copy numbers from 1 to 7 and
9 leaves the worker's result unchanged. -/
theorem copy_number_independence_witness :
    workerRun scOpts scReads1 scReads2 =
      workerRun scOpts scReads1Heavy scReads2Heavy :=
  copy_number_independence scOpts scReads1 scReads2 scReads1Heavy scReads2Heavy
    (fun ori => by by_cases h : ori = Forward <;>
      simp [scReads1, scReads1Heavy, h, sameCoords])
    (fun ori => by by_cases h : ori = Forward <;>
      simp [scReads2, scReads2Heavy, h, sameCoords])
    (fun ori r hr => by
      by_cases h : ori = Forward <;> simp [scReads1, h] at hr
      simp [hr])
    (fun ori r hr => by
      by_cases h : ori = Forward <;> simp [scReads1Heavy, h] at hr
      simp [hr])
    (fun ori r hr => by
      by_cases h : ori = Forward <;> simp [scReads2, h] at hr
      simp [hr])
    (fun ori r hr => by
      by_cases h : ori = Forward <;> simp [scReads2Heavy, h] at hr
      simp [hr])

/-- Adding `v` into a map at one key raises a nodup-key sum by `v` when
the key is in range, and not at all otherwise. -/
theorem sum_map_update (l : List Int) (hl : l.Nodup) (h : Int → Nat)
    (k0 : Int) (v : Nat) :
    (l.map (fun k => if k = k0 then h k + v else h k)).sum =
      (l.map h).sum + (if k0 ∈ l then v else 0) := by
  induction l with
  | nil => simp
  | cons a t ih =>
    rcases List.nodup_cons.mp hl with ⟨ha, ht⟩
    simp only [List.map_cons, List.sum_cons, List.mem_cons]
    rw [ih ht]
    by_cases hk : a = k0
    · subst hk
      rw [if_pos rfl, if_pos (Or.inl rfl), if_neg (fun hm => ha hm)]
      omega
    · rw [if_neg hk]
      by_cases hm : k0 ∈ t
      · rw [if_pos hm, if_pos (Or.inr hm)]
        omega
      · rw [if_neg hm, if_neg (by rintro (h1 | h2); exact hk h1.symm; exact hm h2)]
        omega

/-- One probe adds at most the largest index weight to the histogram sum. -/
theorem histSum_probeStep_le (span ori : Int) (wig : Int → Nat) (pos : Int)
    (hist : Int → Nat) (relPos : Int) (M : Nat) (hw : ∀ p, wig p ≤ M) :
    histSum span (probeStep ori wig pos hist relPos) ≤ histSum span hist + M := by
  unfold probeStep
  split
  · exact Nat.le_add_right _ _
  · unfold histSum
    rw [sum_map_update _ (deltas_nodup span)]
    have := hw (pos + relPos)
    split <;> omega

/-- The whole inner offset loop adds at most (number of offsets) × (max
index weight) to the histogram sum. -/
theorem histSum_probe_foldl_le (span ori : Int) (wig : Int → Nat) (pos : Int)
    (M : Nat) (hw : ∀ p, wig p ≤ M) (l : List Int) (hist : Int → Nat) :
    histSum span (l.foldl (probeStep ori wig pos) hist) ≤
      histSum span hist + l.length * M := by
  induction l generalizing hist with
  | nil => simp
  | cons a t ih =>
    have h1 := ih (probeStep ori wig pos hist a)
    have h2 := histSum_probeStep_le span ori wig pos hist a M hw
    rw [List.foldl_cons, List.length_cons, Nat.succ_mul]
    generalize t.length * M = Q at h1 ⊢
    omega

/-- One dataset-2 record either leaves the scan state untouched (the
collapse-2 skip) or bumps `count2` by one and the histogram sum by at most
(number of offsets) × (max index weight). -/
theorem scan2Step_bound (c : Bool) (g : Range → Int → Int) (span ori : Int)
    (wig : Int → Nat) (M : Nat) (hw : ∀ p, wig p ≤ M)
    (acc : (Int → Bool) × Nat × (Int → Nat)) (r : Range) :
    (scan2Step c g span ori wig acc r = acc) ∨
    ((scan2Step c g span ori wig acc r).2.1 = acc.2.1 + 1 ∧
      histSum span (scan2Step c g span ori wig acc r).2.2 ≤
        histSum span acc.2.2 + (deltas span).length * M) := by
  unfold scan2Step
  dsimp only
  split
  · exact Or.inl rfl
  · exact Or.inr ⟨rfl, histSum_probe_foldl_le span ori wig (g r ori) M hw _ _⟩

/-- Over the dataset-2 scan, the histogram sum grows by at most the number
of processed records times (number of offsets) × (max index weight). -/
theorem scan2_foldl_bound (c : Bool) (g : Range → Int → Int) (span ori : Int)
    (wig : Int → Nat) (M : Nat) (hw : ∀ p, wig p ≤ M) (l : List Range)
    (acc : (Int → Bool) × Nat × (Int → Nat)) :
    histSum span (l.foldl (scan2Step c g span ori wig) acc).2.2
        + acc.2.1 * ((deltas span).length * M) ≤
      histSum span acc.2.2
        + (l.foldl (scan2Step c g span ori wig) acc).2.1
          * ((deltas span).length * M) := by
  induction l generalizing acc with
  | nil => simp
  | cons r t ih =>
    rw [List.foldl_cons]
    have h1 := ih (scan2Step c g span ori wig acc r)
    rcases scan2Step_bound c g span ori wig M hw acc r with he | ⟨hc, hh⟩
    · rw [he]
      exact ih acc
    · rw [hc, Nat.succ_mul] at h1
      generalize hq : (deltas span).length * M = C at h1 hh ⊢
      generalize acc.2.1 * C = P at h1 ⊢
      generalize (t.foldl (scan2Step c g span ori wig)
        (scan2Step c g span ori wig acc r)).2.1 * C = Q at h1 ⊢
      omega

/-- The index the dataset-1 scan builds does not depend on the incoming
value of `count1` (the skip test reads only the index itself). -/
theorem scan1_wig_count_indep (c : Bool) (g : Range → Int → Int) (o : Int)
    (l : List Range) (wig0 : Int → Nat) (c0 c0' : Nat) :
    (l.foldl (scan1Step c g o) (wig0, c0)).1 =
      (l.foldl (scan1Step c g o) (wig0, c0')).1 := by
  induction l generalizing wig0 c0 c0' with
  | nil => rfl
  | cons r t ih =>
    simp only [List.foldl_cons, scan1Step]
    by_cases h : 0 < wig0 (g r o) ∧ c = true
    · rw [if_pos h, if_pos h]
      exact ih wig0 c0 c0'
    · rw [if_neg h, if_neg h]
      exact ih _ _ _

/-- One orientation pass raises the histogram sum by at most the number of
dataset-2 records it processes times (number of offsets) × (max weight of
the pass's dataset-1 index). -/
theorem workerOri_bound (opts : Opts) (reads1 reads2 : Int → List Range)
    (ori : Int) (st : WorkerRes) (M : Nat)
    (hw : ∀ p, wigOf opts reads1 ori p ≤ M) :
    histSum opts.span (workerOri opts reads1 reads2 ori st).hist
        + st.count2 * ((deltas opts.span).length * M) ≤
      histSum opts.span st.hist
        + (workerOri opts reads1 reads2 ori st).count2
          * ((deltas opts.span).length * M) := by
  unfold workerOri
  dsimp only
  have hwig : ((reads1 (oriQ opts ori)).foldl
      (scan1Step opts.collapse1 (getPosFn opts.pos1) (oriQ opts ori))
      ((fun _ => 0), st.count1)).1 = wigOf opts reads1 ori := by
    rw [wigOf]
    exact scan1_wig_count_indep _ _ _ _ _ _ _
  rw [hwig]
  exact scan2_foldl_bound opts.collapse2 (getPosFn opts.pos2) opts.span ori
    (wigOf opts reads1 ori) M hw (reads2 ori) ((fun _ => false), st.count2, st.hist)

/-- C9 amended: the worker's histogram is non-negative at every offset,
and its total over the reported range is at most readCount2 × (2·span+1)
× M, where M bounds the weight the dataset-1 index holds at any single
position (for either orientation pass). -/
theorem histogram_sanity_bound (opts : Opts)
    (reads1 reads2 : Int → List Range) (M : Nat)
    (hM : ∀ ori : Int, ori = Forward ∨ ori = Reverse →
      ∀ p, wigOf opts reads1 ori p ≤ M) :
    (∀ k, 0 ≤ (workerRun opts reads1 reads2).hist k) ∧
    histSum opts.span (workerRun opts reads1 reads2).hist ≤
      (workerRun opts reads1 reads2).count2 * ((2 * opts.span + 1).toNat * M) := by
  refine ⟨fun k => Nat.zero_le _, ?_⟩
  rw [← deltas_length]
  have hF := workerOri_bound opts reads1 reads2 Forward ⟨(fun _ => 0), 0, 0⟩ M
    (hM Forward (Or.inl rfl))
  have hR := workerOri_bound opts reads1 reads2 Reverse
    (workerOri opts reads1 reads2 Forward ⟨(fun _ => 0), 0, 0⟩) M
    (hM Reverse (Or.inr rfl))
  have hrun : workerRun opts reads1 reads2 = workerOri opts reads1 reads2 Reverse
      (workerOri opts reads1 reads2 Forward ⟨(fun _ => 0), 0, 0⟩) := by
    unfold workerRun
    simp only [List.foldl_cons, List.foldl_nil]
  rw [hrun]
  have hz : histSum opts.span ((⟨(fun _ => 0), 0, 0⟩ : WorkerRes).hist) = 0 := by
    simp [histSum]
  rw [hz] at hF
  generalize hq : (deltas opts.span).length * M = C at hF hR ⊢
  generalize (workerOri opts reads1 reads2 Forward ⟨(fun _ => 0), 0, 0⟩).count2 * C = P
    at hF hR ⊢
  generalize (workerOri opts reads1 reads2 Reverse
    (workerOri opts reads1 reads2 Forward ⟨(fun _ => 0), 0, 0⟩)).count2 * C = Q at hR ⊢
  omega

/-- Dataset 1 with two forward records at the distinct positions 10 and
11, each with copy number 1 (for the C9 bound analysis). -/
def c9Reads1 : Int → List Range :=
  fun ori => if ori = Forward then [⟨10, 10, 1⟩, ⟨11, 11, 1⟩] else []

/-- On the two-record dataset 1, every index entry is at most 1 (the two
records occupy distinct positions). -/
theorem c9_wig_le_one : ∀ ori : Int, ori = Forward ∨ ori = Reverse →
    ∀ p, wigOf scOpts c9Reads1 ori p ≤ 1 := by
  intro ori h p
  rcases h with h | h <;> subst h
  · have hg : getPosFn scOpts.pos1 = headAt := rfl
    have hc : scOpts.collapse1 = false := rfl
    have hl : c9Reads1 (oriQ scOpts Forward) = [⟨10, 10, 1⟩, ⟨11, 11, 1⟩] := rfl
    have h10 : headAt ⟨10, 10, 1⟩ (oriQ scOpts Forward) = 10 := rfl
    have h11 : headAt ⟨11, 11, 1⟩ (oriQ scOpts Forward) = 11 := rfl
    simp only [wigOf, hg, hc, hl, List.foldl_cons, List.foldl_nil, scan1Step,
      h10, h11]
    simp
    split_ifs <;> omega
  · have hl : c9Reads1 (oriQ scOpts Reverse) = [] := rfl
    simp only [wigOf, hl, List.foldl_nil]
    omega

/-- On the single-record scenario dataset 1, every index entry is at most
1 (used to discharge the C9 bound hypothesis concretely). -/
theorem sc_wig_le_one : ∀ ori : Int, ori = Forward ∨ ori = Reverse →
    ∀ p, wigOf scOpts scReads1 ori p ≤ 1 := by
  intro ori h p
  rcases h with h | h <;> subst h
  · have hg : getPosFn scOpts.pos1 = headAt := rfl
    have hc : scOpts.collapse1 = false := rfl
    have hl : scReads1 (oriQ scOpts Forward) = [⟨10, 10, 1⟩] := rfl
    have h10 : headAt ⟨10, 10, 1⟩ (oriQ scOpts Forward) = 10 := rfl
    simp only [wigOf, hg, hc, hl, List.foldl_cons, List.foldl_nil, scan1Step, h10]
    simp
    split_ifs <;> omega
  · have hl : scReads1 (oriQ scOpts Reverse) = [] := rfl
    simp only [wigOf, hl, List.foldl_nil]
    omega

/-- C9 counterexample: dataset 1 holds single-copy records at the two
distinct positions 10 and 11, dataset 2 one record at 12, span 5.  The
index weight at every single position is at most 1 (and exactly 1 at 10),
readCount2 is 1, yet the histogram entries sum to 2 — the record at 12
picks up dataset-1 weight at both probes 10 and 11 — violating
sum ≤ readCount2 × (max single-position weight) = 1. -/
theorem histogram_sanity_bound_counterexample :
    (∀ ori : Int, ori = Forward ∨ ori = Reverse →
      ∀ p, wigOf scOpts c9Reads1 ori p ≤ 1) ∧
    wigOf scOpts c9Reads1 Forward 10 = 1 ∧
    (workerRun scOpts c9Reads1 scReads2).count2 = 1 ∧
    histSum scOpts.span (workerRun scOpts c9Reads1 scReads2).hist = 2 ∧
    ¬(histSum scOpts.span (workerRun scOpts c9Reads1 scReads2).hist ≤
        (workerRun scOpts c9Reads1 scReads2).count2 * 1) :=
  ⟨c9_wig_le_one, by decide, by decide, by decide, by decide⟩

/-- Witness for C9's amended bound on the concrete scenario with M = 1. -/
theorem histogram_sanity_bound_witness :
    (∀ ori : Int, ori = Forward ∨ ori = Reverse →
      ∀ p, wigOf scOpts scReads1 ori p ≤ 1) ∧
    histSum scOpts.span (workerRun scOpts scReads1 scReads2).hist ≤
      (workerRun scOpts scReads1 scReads2).count2 *
        ((2 * scOpts.span + 1).toNat * 1) :=
  ⟨sc_wig_le_one,
   (histogram_sanity_bound scOpts scReads1 scReads2 1 sc_wig_le_one).2⟩

end Htsdb
